import Mathlib

set_option maxRecDepth 20000

namespace OutlookAutomation

/-!
Shallow embedding of src/main.py (outlook-automation).

Strings are modelled as `String`/`List Char`; the filesystem as explicit
state; the Outlook COM object model as an environment record describing
what the external calls would return.  `is_valid_email` delegates to the
standard library address parser (`email.utils.parseaddr`, implemented by
`email._parseaddr.AddrlistClass`); that parser is embedded below in full,
with an explicit fuel parameter driving its loops and mutual recursion.
Every lemma about the parser is either quantified over the fuel or
evaluated at a fuel large enough for the concrete input.
-/

/-! ### email._parseaddr.AddrlistClass character classes -/

def SPECIALS : List Char := ['(', ')', '<', '>', '@', ',', ':', ';', '.', '"', '[', ']']

def LWS : List Char := [' ', '\t']

def CRchars : List Char := ['\r', '\n']

def FWS : List Char := LWS ++ CRchars

def atomends : List Char := SPECIALS ++ LWS ++ CRchars

def phraseends : List Char := (SPECIALS.filter (· ≠ '.')) ++ LWS ++ CRchars

/-- Parser state: the cursor `pos` and the accumulated `commentlist`.
The parsed field itself is immutable and passed separately. -/
structure PState where
  pos : Nat
  comments : List (List Char)
deriving Repr, DecidableEq

/-- Character of the field at a cursor position.  Out-of-range positions
yield a NUL character, which belongs to no character class used by the
parser and never equals a delimiter; every unguarded index in the Python
source is reached only with the cursor in range. -/
def chAt (field : List Char) (pos : Nat) : Char := field.getD pos (Char.ofNat 0)

/-- email._parseaddr.quote: escape backslashes and double quotes. -/
def pyQuote (s : List Char) : List Char :=
  (s.map fun c =>
    if c = '\\' then ['\\', '\\']
    else if c = '"' then ['\\', '"']
    else [c]).flatten

/-- Python SPACE.join on a list of fragments. -/
def joinSpace (l : List (List Char)) : List Char := (l.intersperse [' ']).flatten

/-- Characters stripped by Python str.strip() on the ASCII inputs the
parser produces. -/
def pyWhitespace : List Char := [' ', '\t', '\n', '\r', '\x0b', '\x0c']

/-- `not s.strip()`: the fragment consists of whitespace only. -/
def isAllWS (s : List Char) : Bool := s.all (pyWhitespace.contains ·)

/-! ### getatom -/

def gaLoop (field : List Char) (ends : List Char) : Nat → PState → List Char → (List Char × PState)
  | 0, st, acc => (acc, st)
  | f+1, st, acc =>
    if st.pos < field.length then
      let c := chAt field st.pos
      if ends.contains c then (acc, st)
      else gaLoop field ends f ⟨st.pos + 1, st.comments⟩ (acc ++ [c])
    else (acc, st)

def getatom (field : List Char) (ends : List Char) (fuel : Nat) (st : PState) : List Char × PState :=
  gaLoop field ends fuel st []

/-! ### getdelimited / getcomment / gotonext (mutually recursive) -/

mutual

def getdelimited (field : List Char) (beginchar : Char) (endchars : List Char)
    (allowcomments : Bool) : Nat → PState → (List Char × PState)
  | 0, st => ([], st)
  | f+1, st =>
    if chAt field st.pos ≠ beginchar then ([], st)
    else gdLoop field endchars allowcomments f ⟨st.pos + 1, st.comments⟩ false []

def gdLoop (field : List Char) (endchars : List Char) (allowcomments : Bool) :
    Nat → PState → Bool → List Char → (List Char × PState)
  | 0, st, _, acc => (acc, st)
  | f+1, st, q, acc =>
    if st.pos < field.length then
      let c := chAt field st.pos
      if q then gdLoop field endchars allowcomments f ⟨st.pos + 1, st.comments⟩ false (acc ++ [c])
      else if endchars.contains c then (acc, ⟨st.pos + 1, st.comments⟩)
      else if allowcomments && c = '(' then
        let r := getcomment field f st
        gdLoop field endchars allowcomments f r.2 false (acc ++ r.1)
      else if c = '\\' then gdLoop field endchars allowcomments f ⟨st.pos + 1, st.comments⟩ true acc
      else gdLoop field endchars allowcomments f ⟨st.pos + 1, st.comments⟩ false (acc ++ [c])
    else (acc, st)

def getcomment (field : List Char) : Nat → PState → (List Char × PState)
  | 0, st => ([], st)
  | f+1, st => getdelimited field '(' [')', '\r'] true f st

end

/-! ### gotonext -/

def gotonext (field : List Char) : Nat → PState → (List Char × PState)
  | 0, st => ([], st)
  | f+1, st =>
    if st.pos < field.length then
      let c := chAt field st.pos
      if (LWS ++ ['\n', '\r']).contains c then
        let w : List Char := if c = '\n' ∨ c = '\r' then [] else [c]
        let r := gotonext field f ⟨st.pos + 1, st.comments⟩
        (w ++ r.1, r.2)
      else if c = '(' then
        let r := getcomment field f st
        gotonext field f ⟨r.2.pos, r.2.comments ++ [r.1]⟩
      else ([], st)
    else ([], st)

def getquote (field : List Char) : Nat → PState → (List Char × PState)
  | 0, st => ([], st)
  | f+1, st => getdelimited field '"' ['"', '\r'] false f st

def getdomainliteral (field : List Char) : Nat → PState → (List Char × PState)
  | 0, st => ([], st)
  | f+1, st =>
    let r := getdelimited field '[' [']', '\r'] false f st
    ('[' :: r.1 ++ [']'], r.2)

/-! ### getdomain -/

def gdomLoop (field : List Char) : Nat → PState → List (List Char) → (List Char × PState)
  | 0, st, acc => (acc.flatten, st)
  | f+1, st, acc =>
    if st.pos < field.length then
      let c := chAt field st.pos
      if LWS.contains c then gdomLoop field f ⟨st.pos + 1, st.comments⟩ acc
      else if c = '(' then
        let r := getcomment field f st
        gdomLoop field f ⟨r.2.pos, r.2.comments ++ [r.1]⟩ acc
      else if c = '[' then
        let r := getdomainliteral field f st
        gdomLoop field f r.2 (acc ++ [r.1])
      else if c = '.' then gdomLoop field f ⟨st.pos + 1, st.comments⟩ (acc ++ [['.']])
      else if c = '@' then ([], st)
      else if atomends.contains c then (acc.flatten, st)
      else
        let r := getatom field atomends f st
        gdomLoop field f r.2 (acc ++ [r.1])
    else (acc.flatten, st)

def getdomain (field : List Char) (fuel : Nat) (st : PState) : List Char × PState :=
  gdomLoop field fuel st []

/-! ### getaddrspec -/

mutual

def gasLoop (field : List Char) : Nat → PState → List (List Char) → (List (List Char) × PState)
  | 0, st, acc => (acc, st)
  | f+1, st, acc =>
    if st.pos < field.length then
      let c := chAt field st.pos
      if c = '.' then
        let acc1 := (if acc ≠ [] ∧ isAllWS (acc.getLastD []) then acc.dropLast else acc) ++ [['.']]
        gasTail field f ⟨st.pos + 1, st.comments⟩ acc1 false
      else if c = '"' then
        let r := getquote field f st
        gasTail field f r.2 (acc ++ [('"' :: pyQuote r.1) ++ ['"']]) true
      else if atomends.contains c then
        ((if acc ≠ [] ∧ isAllWS (acc.getLastD []) then acc.dropLast else acc), st)
      else
        let r := getatom field atomends f st
        gasTail field f r.2 (acc ++ [r.1]) true
    else (acc, st)

def gasTail (field : List Char) : Nat → PState → List (List Char) → Bool → (List (List Char) × PState)
  | 0, st, acc, _ => (acc, st)
  | f+1, st, acc, preserve =>
    let r := gotonext field f st
    gasLoop field f r.2 (if preserve ∧ r.1 ≠ [] then acc ++ [r.1] else acc)

end

def getaddrspec (field : List Char) : Nat → PState → (List Char × PState)
  | 0, st => ([], st)
  | f+1, st =>
    let r0 := gotonext field f st
    let r1 := gasLoop field f r0.2 []
    let aslist := r1.1
    let st2 := r1.2
    if st2.pos ≥ field.length ∨ chAt field st2.pos ≠ '@' then (aslist.flatten, st2)
    else
      let r2 := gotonext field f ⟨st2.pos + 1, st2.comments⟩
      let r3 := getdomain field f r2.2
      if r3.1 = [] then ([], r3.2)
      else ((aslist ++ [['@']]).flatten ++ r3.1, r3.2)

/-! ### getphraselist -/

def gplLoop (field : List Char) : Nat → PState → List (List Char) → (List (List Char) × PState)
  | 0, st, acc => (acc, st)
  | f+1, st, acc =>
    if st.pos < field.length then
      let c := chAt field st.pos
      if FWS.contains c then gplLoop field f ⟨st.pos + 1, st.comments⟩ acc
      else if c = '"' then
        let r := getquote field f st
        gplLoop field f r.2 (acc ++ [r.1])
      else if c = '(' then
        let r := getcomment field f st
        gplLoop field f ⟨r.2.pos, r.2.comments ++ [r.1]⟩ acc
      else if phraseends.contains c then (acc, st)
      else
        let r := getatom field phraseends f st
        gplLoop field f r.2 (acc ++ [r.1])
    else (acc, st)

def getphraselist (field : List Char) (fuel : Nat) (st : PState) : List (List Char) × PState :=
  gplLoop field fuel st []

/-! ### getrouteaddr -/

def raLoop (field : List Char) : Nat → PState → Bool → List Char → (List Char × PState)
  | 0, st, _, adlist => (adlist, st)
  | f+1, st, expectroute, adlist =>
    if st.pos < field.length then
      if expectroute then
        let r1 := getdomain field f st
        let r2 := gotonext field f r1.2
        raLoop field f r2.2 false adlist
      else
        let c := chAt field st.pos
        if c = '>' then (adlist, ⟨st.pos + 1, st.comments⟩)
        else if c = '@' then
          let r := gotonext field f ⟨st.pos + 1, st.comments⟩
          raLoop field f r.2 true adlist
        else if c = ':' then
          let r := gotonext field f ⟨st.pos + 1, st.comments⟩
          raLoop field f r.2 false adlist
        else
          let r := getaddrspec field f st
          (r.1, ⟨r.2.pos + 1, r.2.comments⟩)
    else (adlist, st)

def getrouteaddr (field : List Char) : Nat → PState → (List Char × PState)
  | 0, st => ([], st)
  | f+1, st =>
    if chAt field st.pos ≠ '<' then ([], st)
    else
      let r := gotonext field f ⟨st.pos + 1, st.comments⟩
      raLoop field f r.2 false []

/-! ### getaddress / getaddrlist -/

mutual

def getaddress (field : List Char) : Nat → PState → (List (List Char × List Char) × PState)
  | 0, st => ([], st)
  | f+1, st =>
    let r0 := gotonext field f ⟨st.pos, []⟩
    let oldpos := r0.2.pos
    let oldcl := r0.2.comments
    let rp := getphraselist field f r0.2
    let plist := rp.1
    let r1 := gotonext field f rp.2
    let st3 := r1.2
    let body : List (List Char × List Char) × PState :=
      if st3.pos ≥ field.length then
        (if plist ≠ [] then [(joinSpace st3.comments, plist.headD [])] else [], st3)
      else if chAt field st3.pos = '.' ∨ chAt field st3.pos = '@' then
        let r := getaddrspec field f ⟨oldpos, oldcl⟩
        ([(joinSpace r.2.comments, r.1)], r.2)
      else if chAt field st3.pos = ':' then
        gaGroupLoop field f ⟨st3.pos + 1, st3.comments⟩ []
      else if chAt field st3.pos = '<' then
        let r := getrouteaddr field f st3
        let realname :=
          if r.2.comments ≠ [] then
            joinSpace plist ++ [' ', '('] ++ joinSpace r.2.comments ++ [')']
          else joinSpace plist
        ([(realname, r.1)], r.2)
      else
        if plist ≠ [] then ([(joinSpace st3.comments, plist.headD [])], st3)
        else if SPECIALS.contains (chAt field st3.pos) then ([], ⟨st3.pos + 1, st3.comments⟩)
        else ([], st3)
    let r2 := gotonext field f body.2
    let st6 : PState :=
      if r2.2.pos < field.length ∧ chAt field r2.2.pos = ',' then ⟨r2.2.pos + 1, r2.2.comments⟩
      else r2.2
    (body.1, st6)

def gaGroupLoop (field : List Char) :
    Nat → PState → List (List Char × List Char) → (List (List Char × List Char) × PState)
  | 0, st, acc => (acc, st)
  | f+1, st, acc =>
    if st.pos < field.length then
      let r := gotonext field f st
      if r.2.pos < field.length ∧ chAt field r.2.pos = ';' then (acc, ⟨r.2.pos + 1, r.2.comments⟩)
      else
        let ra := getaddress field f r.2
        gaGroupLoop field f ra.2 (acc ++ ra.1)
    else (acc, st)

end

def galLoop (field : List Char) :
    Nat → PState → List (List Char × List Char) → (List (List Char × List Char) × PState)
  | 0, st, acc => (acc, st)
  | f+1, st, acc =>
    if st.pos < field.length then
      let r := getaddress field f st
      galLoop field f r.2 (acc ++ (if r.1 ≠ [] then r.1 else [([], [])]))
    else (acc, st)

/-- Fuel sufficient for a complete parse of `field`: every loop step either
advances the cursor or enters a sub-parser on a shorter remaining segment,
and each address is re-scanned at most once, so the total number of steps
is quadratically bounded. -/
def parserFuel (field : List Char) : Nat := 8 * (field.length + 2) * (field.length + 2) + 64

def getaddrlist (field : List Char) : List (List Char × List Char) :=
  (galLoop field (parserFuel field) ⟨0, []⟩ []).1

/-- email.utils.parseaddr: first parsed (realname, addr) pair, or a pair of
empty strings when nothing was parsed. -/
def parseaddr (addr : String) : String × String :=
  let addrs := if addr.data = [] then [] else getaddrlist addr.data
  match addrs with
  | [] => ("", "")
  | (r, a) :: _ => (⟨r⟩, ⟨a⟩)

/-- src/main.py `is_valid_email`: membership of the character `@` in the
address component returned by `parseaddr`. -/
def is_valid_email (email : String) : Bool := (parseaddr email).2.data.contains '@'

/-! ### Paths and filesystem -/

/-- s.endswith for a single backslash, computed on the character list. -/
def endsWithBackslash (s : String) : Bool := s.data.getLast? == some '\\'

/-- ntpath.join for the path shapes used by main.py: append with a single
backslash separator; an empty second component adds only a trailing
separator.  Drive-relative second components do not occur here. -/
def joinPath (a b : String) : String :=
  if a = "" then b
  else if endsWithBackslash a then a ++ b
  else a ++ "\\" ++ b

/-- src/main.py `create_folder`: resolve the user's Documents folder
through the shell object (modelled as the `documentsPath` argument), join
`output_dir` under it, and append a trailing separator. -/
def create_folder (documentsPath : String) (output_dir : String) : String :=
  joinPath (joinPath documentsPath output_dir) ""

/-- Largest index of `c` in `cs` (Python str.rfind, with rfind's -1
represented as `none`). -/
def rfindChar (cs : List Char) (c : Char) : Option Nat :=
  (cs.enum.filter (fun p => p.2 = c)).foldl (fun _ p => some p.1) none

/-- Strict comparison of rfind results under Python's -1 convention. -/
def idxLt (a b : Option Nat) : Bool :=
  match a, b with
  | none, none => false
  | none, some _ => true
  | some _, none => false
  | some i, some j => i < j

/-- max of two rfind results under Python's -1 convention. -/
def idxMax (a b : Option Nat) : Option Nat := if idxLt a b then b else a

/-- os.path.splitext(p)[1] (ntpath flavour): the extension including its
leading dot, empty when the basename has no dot after its leading dots. -/
def splitextExt (p : String) : String :=
  let cs := p.data
  let sepIndex := idxMax (rfindChar cs '\\') (rfindChar cs '/')
  let dotIndex := rfindChar cs '.'
  if idxLt sepIndex dotIndex then
    match dotIndex with
    | some d =>
      let start := match sepIndex with | none => 0 | some s => s + 1
      let mid := (cs.take d).drop start
      if mid.any (· ≠ '.') then ⟨cs.drop d⟩ else ""
    | none => ""
  else ""

/-- os.path.basename: the component after the last separator. -/
def basename (p : String) : String :=
  ⟨(p.data.reverse.takeWhile (fun c => c ≠ '\\' ∧ c ≠ '/')).reverse⟩

/-- Filesystem state: directories and file paths present.  Paths are
compared after stripping one trailing separator. -/
structure FS where
  dirs : List String
  files : List String
deriving Repr, DecidableEq

def normPath (p : String) : String :=
  if endsWithBackslash p then ⟨p.data.dropLast⟩ else p

def isdir (fs : FS) (p : String) : Bool := fs.dirs.contains (normPath p)

/-- Proper ancestor prefixes of a path at separator boundaries, as created
by os.makedirs for missing intermediate directories. -/
def pathPrefixes (p : String) : List String :=
  let cs := (normPath p).data
  (List.range cs.length).filterMap fun i =>
    if chAt cs i = '\\' then some ⟨cs.take i⟩ else none

/-- os.makedirs with exist_ok=True: the directory and all its ancestors
exist afterwards. -/
def makedirs (fs : FS) (p : String) : FS :=
  ⟨fs.dirs ++ pathPrefixes p ++ [normPath p], fs.files⟩

/-! ### Attachments and records -/

/-- An Outlook attachment handle: its declared file name, the identifier
uuid4 yields for its download, and whether SaveAsFile succeeds
(injected-fault modelling of an I/O error during the save). -/
structure Attachment where
  fileName : String
  uuid : String
  saveOk : Bool
deriving Repr, DecidableEq

structure AttachmentRecord where
  path : String
  name : String
  id : String
deriving Repr, DecidableEq

/-- src/main.py `download_attachment`: the attachment details (or `none`,
as Python returns None on a disallowed extension or when the save raised
and was caught inside the function) together with the filesystem after
the call. -/
def download_attachment (fs : FS) (attachment : Attachment) (output_dir : String)
    (allowed_file_types : List String) : Option AttachmentRecord × FS :=
  let file_extension := splitextExt attachment.fileName
  if allowed_file_types.isEmpty || allowed_file_types.contains file_extension then
    let attachment_path := joinPath output_dir attachment.fileName
    if attachment.saveOk then
      (some ⟨attachment_path, attachment.fileName, attachment.uuid⟩,
       ⟨fs.dirs, fs.files ++ [attachment_path]⟩)
    else (none, fs)
  else (none, fs)

/-- An Outlook mail item as read by get_emails / process_email.
`senderSmtp` is `none` when evaluating
Sender.GetExchangeUser().PrimarySmtpAddress would raise (no
directory-backed sender). -/
structure Message where
  subject : String
  conversationId : String
  body : String
  senderName : String
  senderSmtp : Option String
  unread : Bool
  receivedTime : Int
  attachments : List Attachment
deriving Repr, DecidableEq

/-- The email-details dictionary built by process_email (`from` is spelled
`fromAddr`). -/
structure EmailRecord where
  name : String
  subject : String
  conversation_id : String
  fromAddr : String
  sender : String
  body : String
  files : List AttachmentRecord
  status : String
deriving Repr, DecidableEq

/-- Sequential model of the ThreadPoolExecutor fan-out in process_email:
futures are submitted in attachment order and collected in the same
order; a `none` result contributes nothing. -/
def downloadAll (fs : FS) (atts : List Attachment) (output_dir : String)
    (allowed : List String) : List AttachmentRecord × FS :=
  match atts with
  | [] => ([], fs)
  | att :: rest =>
    let r := download_attachment fs att output_dir allowed
    let rr := downloadAll r.2 rest output_dir allowed
    (match r.1 with
     | some d => d :: rr.1
     | none => rr.1, rr.2)

/-- src/main.py `process_email`: the updated emails list and filesystem.
When resolving the sender raises, the enclosing except swallows the error
and no record is appended, but attachment saves that already happened
persist. -/
def process_email (fs : FS) (msg : Message) (emails_list : List EmailRecord)
    (output_dir : String) (allowed_file_types : Option (List String)) :
    List EmailRecord × FS :=
  let allowed := allowed_file_types.getD []
  let r := downloadAll fs msg.attachments output_dir allowed
  match msg.senderSmtp with
  | none => (emails_list, r.2)
  | some smtp =>
    (emails_list ++
      [⟨msg.subject, msg.subject, msg.conversationId, smtp, msg.senderName,
        msg.body, r.1, "pending"⟩], r.2)

/-! ### get_emails -/

/-- The read filter on line 208 of src/main.py, exactly as written there:
`not include_read and msg.UnRead or include_read`. -/
def passesReadFilter (include_read : Bool) (msg : Message) : Bool :=
  (!include_read && msg.unread) || include_read

/-- SQL LIKE matching with `%` (any sequence) and `_` (any character), the
semantics of the DASL Restrict filter applied to the subject; the fuel is
a structural-recursion device, always at least the summed lengths. -/
def sqlLikeF : Nat → List Char → List Char → Bool
  | 0, _, _ => false
  | _+1, [], [] => true
  | _+1, [], _ :: _ => false
  | f+1, '%' :: ps1, ts =>
    sqlLikeF f ps1 ts ||
      (match ts with
       | [] => false
       | _ :: ts1 => sqlLikeF f ('%' :: ps1) ts1)
  | f+1, '_' :: ps1, _ :: ts1 => sqlLikeF f ps1 ts1
  | _+1, _ :: _, [] => false
  | f+1, p :: ps1, t :: ts1 => p = t && sqlLikeF f ps1 ts1

def sqlLike (ps ts : List Char) : Bool := sqlLikeF (ps.length + ts.length + 1) ps ts

/-- Items.Restrict with the urn:schemas:httpmail:subject LIKE filter. -/
def restrictSubject (msgs : List Message) (subject : String) : List Message :=
  msgs.filter fun m => sqlLike ('%' :: subject.data ++ ['%']) m.subject.data

/-- The additional Restrict on ReceivedTime when `since` is given. -/
def restrictSince (msgs : List Message) (since : Int) : List Message :=
  msgs.filter fun m => m.receivedTime ≥ since

def insertDesc (m : Message) : List Message → List Message
  | [] => [m]
  | x :: xs => if m.receivedTime ≥ x.receivedTime then m :: x :: xs else x :: insertDesc m xs

/-- messages.Sort by ReceivedTime, descending. -/
def sortByReceivedDesc : List Message → List Message
  | [] => []
  | x :: xs => insertDesc x (sortByReceivedDesc xs)

structure Folder where
  name : String
  items : List Message
deriving Repr, DecidableEq

/-- Environment for get_emails: the resolved Documents path, whether
dispatching Outlook inside the try block succeeds, and the subfolders of
the default inbox folder (GetDefaultFolder(6).Folders). -/
structure OutlookEnv where
  documentsPath : String
  dispatchOk : Bool
  inboxSubfolders : List Folder
deriving Repr, DecidableEq

/-- Message loop of get_emails: the per-message try/except adds nothing
beyond process_email, which already catches every error it can raise. -/
def processLoop (fs : FS) (msgs : List Message) (include_read : Bool)
    (emails : List EmailRecord) (folderPath : String)
    (allowed : Option (List String)) : List EmailRecord × FS :=
  match msgs with
  | [] => (emails, fs)
  | m :: rest =>
    if passesReadFilter include_read m then
      let r := process_email fs m emails folderPath allowed
      processLoop r.2 rest include_read r.1 folderPath allowed
    else processLoop fs rest include_read emails folderPath allowed

/-- src/main.py `get_emails`: the returned list of email dictionaries and
the filesystem after the call. -/
def get_emails (env : OutlookEnv) (fs : FS) (email : String) (subject : String)
    (folder_name : String) (output_dir : String)
    (allowed_file_types : Option (List String)) (include_read : Bool)
    (since : Option Int) : List EmailRecord × FS :=
  let folderPath := create_folder env.documentsPath output_dir
  let fs1 := if isdir fs folderPath then fs else makedirs fs folderPath
  if is_valid_email email = false then ([], fs1)
  else if env.dispatchOk = false then ([], fs1)
  else
    match env.inboxSubfolders.find? (fun f => f.name = folder_name) with
    | none => ([], fs1)
    | some found_folder =>
      let ms0 := restrictSubject found_folder.items subject
      let ms1 := match since with
        | some t => restrictSince ms0 t
        | none => ms0
      processLoop fs1 (sortByReceivedDesc ms1) include_read [] folderPath allowed_file_types

/-! ### send_email_via_outlook -/

structure SendAttachment where
  path : String
deriving Repr, DecidableEq

/-- The composed Outlook mail item: recipients, body (HTML or plain),
regular attachment paths, and inline images tagged with their
content identifier (the image's own basename). -/
structure MailItem where
  toRecip : String
  subject : String
  cc : Option String
  bcc : Option String
  htmlBody : Option String
  plainBody : Option String
  attachedPaths : List String
  inlineImages : List (String × String)
deriving Repr, DecidableEq

/-- Environment for send_email_via_outlook: outcome of the Outlook
liveness probe, the working directory used by os.path.abspath, the file
paths that exist, and whether the final Send raises (with the exception
text). -/
structure SendEnv where
  outlookInstalled : Bool
  cwd : String
  files : List String
  sendRaises : Option String
deriving Repr, DecidableEq

/-- src/main.py `is_outlook_installed`: the gen_py cache clearing is a
side effect outside the model; the try/except around EnsureDispatch
reduces to the probe outcome recorded in the environment. -/
def is_outlook_installed (env : SendEnv) : Bool := env.outlookInstalled

def isAbsPath (p : String) : Bool :=
  match p.data with
  | [] => false
  | c :: rest =>
    c = '\\' || c = '/' || (match rest with | ':' :: _ => true | _ => false)

/-- os.path.abspath relative to the working directory (normalisation
beyond separator joining does not occur on the modelled path shapes). -/
def abspath (cwd p : String) : String := if isAbsPath p then p else joinPath cwd p

def pathExists (env : SendEnv) (p : String) : Bool := env.files.contains p

/-- Embedded-image loop: Attachments.Add raises a COM error when the
source file is missing, which the enclosing try turns into an error
status; on success the attachment is tagged with the inline content
identifier (its basename). -/
def addEmbeddedImages (env : SendEnv) (item : MailItem) :
    List String → Except String MailItem
  | [] => .ok item
  | p :: rest =>
    if pathExists env p then
      addEmbeddedImages env
        { item with inlineImages := item.inlineImages ++ [(p, basename p)] } rest
    else .error ("cannot add attachment " ++ p)

/-- Regular-attachment loop: paths are made absolute, added when they
exist, and skipped with a warning otherwise. -/
def addAttachments (env : SendEnv) (item : MailItem) : List SendAttachment → MailItem
  | [] => item
  | a :: rest =>
    let attch_path := abspath env.cwd a.path
    if pathExists env attch_path then
      addAttachments env { item with attachedPaths := item.attachedPaths ++ [attch_path] } rest
    else addAttachments env item rest

/-- src/main.py `send_email_via_outlook`: the status string returned and
the mail item submitted to the send queue (`none` when nothing was
sent).  Every exception inside the try block surfaces as the
"Error sending email" status through the catch-all except. -/
def send_email_via_outlook (env : SendEnv) (toAddr : String) (subject : String)
    (body : String) (attachments : Option (List SendAttachment))
    (html_body : Bool) (cc : Option String) (bcc : Option String)
    (embedded_images : Option (List String)) : String × Option MailItem :=
  if is_outlook_installed env = false then
    ("Outlook is not installed or accessible.", none)
  else if is_valid_email toAddr = false then
    ("Invalid email addresses provided: " ++ toAddr, none)
  else
    let mail0 : MailItem :=
      ⟨toAddr, subject, cc, bcc,
       (if html_body then some body else none),
       (if html_body then none else some body), [], []⟩
    let composed : Except String MailItem :=
      match embedded_images with
      | some imgs => addEmbeddedImages env mail0 imgs
      | none => .ok mail0
    match composed with
    | .error e => ("Error sending email: " ++ e, none)
    | .ok mail1 =>
      let mail2 := match attachments with
        | some atts => addAttachments env mail1 atts
        | none => mail1
      match env.sendRaises with
      | some e => ("Error sending email: " ++ e, none)
      | none => ("Email sent successfully.", some mail2)

/-! ### Spec-side definitions (for refinement claims only) -/

/-- Spec reading for C1: parsing the string as local-part@domain yields a
non-empty domain component — the text after the last `@` of the string is
non-empty.  This follows the spec's words, not the source. -/
def specHasNonemptyDomain (s : String) : Bool :=
  s.data.contains '@' && !(s.data.reverse.takeWhile (· ≠ '@')).isEmpty

/-! ### Concrete fixtures used to instantiate universal theorems -/

def envC3 : OutlookEnv :=
  ⟨"C:\\U", true, [⟨"F", [⟨"sub", "c", "b", "n", some "s@x.y", true, 5,
    [⟨"a.pdf", "u1", true⟩]⟩]⟩]⟩

def envC4 : SendEnv := ⟨false, "C:", [], none⟩

def envC4b : SendEnv := ⟨true, "C:", [], none⟩

def msgC5 : Message :=
  ⟨"s", "c", "b", "n", some "x@y.z", true, 0,
   [⟨"a.pdf", "u1", true⟩, ⟨"b.pdf", "u2", false⟩, ⟨"c.txt", "u3", true⟩]⟩

def envC6 : OutlookEnv := ⟨"C:\\U", true, [⟨"F", []⟩]⟩

def envC9 : SendEnv := ⟨true, "C:", ["C:\\ok.txt"], none⟩

/-! ## Lemmas about the address parser -/

lemma chAt_mem (field : List Char) : ∀ pos : Nat, pos < field.length → chAt field pos ∈ field := by
  induction field with
  | nil => intro pos h; simp at h
  | cons a l ih =>
    intro pos h
    cases pos with
    | zero => simp [chAt]
    | succ p =>
      have hp : p < l.length := by simpa using Nat.lt_of_succ_lt_succ h
      have h2 := ih p hp
      have h3 : chAt (a :: l) (p + 1) = chAt l p := by simp [chAt]
      rw [h3]
      exact List.mem_cons_of_mem a h2

lemma chAt_ne_at {field : List Char} (h : '@' ∉ field) {pos : Nat}
    (hp : pos < field.length) : chAt field pos ≠ '@' :=
  fun he => h (he ▸ chAt_mem field pos hp)

lemma noAt_append {a b : List Char} (ha : '@' ∉ a) (hb : '@' ∉ b) : '@' ∉ a ++ b := by
  intro h
  rcases List.mem_append.1 h with h | h
  · exact ha h
  · exact hb h

lemma noAt_single {c : Char} (hc : c ≠ '@') : '@' ∉ [c] := by
  intro h
  rcases List.mem_singleton.1 h with h
  exact hc h.symm

lemma noAt_flatten {ll : List (List Char)} (h : ∀ x ∈ ll, '@' ∉ x) : '@' ∉ ll.flatten := by
  intro hmem
  rcases List.mem_flatten.1 hmem with ⟨l, hl, hc⟩
  exact h l hl hc

lemma mem_intersperse {α} {sep x : α} : ∀ {l : List α}, x ∈ l.intersperse sep → x = sep ∨ x ∈ l := by
  intro l
  induction l with
  | nil => intro hx; simp [List.intersperse] at hx
  | cons a t ih =>
    cases t with
    | nil => intro hx; simp at hx; subst hx; right; simp
    | cons b t2 =>
      intro hx
      rw [List.intersperse_cons_cons] at hx
      simp only [List.mem_cons] at hx
      rcases hx with hx | hx | hx
      · right; simp [hx]
      · left; exact hx
      · rcases ih hx with h1 | h1
        · left; exact h1
        · right; exact List.mem_cons_of_mem a h1

lemma noAt_joinSpace {ll : List (List Char)} (h : ∀ x ∈ ll, '@' ∉ x) : '@' ∉ joinSpace ll := by
  unfold joinSpace
  apply noAt_flatten
  intro x hx
  rcases mem_intersperse hx with h1 | h1
  · subst h1; decide
  · exact h x h1

lemma noAt_pyQuote {s : List Char} (h : '@' ∉ s) : '@' ∉ pyQuote s := by
  unfold pyQuote
  apply noAt_flatten
  intro x hx
  rcases List.mem_map.1 hx with ⟨c, hc, rfl⟩
  by_cases h1 : c = '\\'
  · simp [h1]
  · by_cases h2 : c = '"'
    · simp [h1, h2]
    · simp only [h1, h2, if_false]
      exact noAt_single fun he => h (he ▸ hc)

lemma okLL_append {acc : List (List Char)} {y : List Char}
    (h : ∀ x ∈ acc, '@' ∉ x) (hy : '@' ∉ y) : ∀ x ∈ acc ++ [y], '@' ∉ x := by
  intro x hx
  rcases List.mem_append.1 hx with hx | hx
  · exact h x hx
  · rcases List.mem_singleton.1 hx with rfl; exact hy

lemma okLL_dropLast {acc : List (List Char)} (h : ∀ x ∈ acc, '@' ∉ x) :
    ∀ x ∈ acc.dropLast, '@' ∉ x :=
  fun x hx => h x ((List.dropLast_sublist acc).subset hx)

lemma okP_append {acc more : List (List Char × List Char)}
    (h : ∀ p ∈ acc, '@' ∉ p.2) (h2 : ∀ p ∈ more, '@' ∉ p.2) :
    ∀ p ∈ acc ++ more, '@' ∉ p.2 := by
  intro p hp
  rcases List.mem_append.1 hp with hp | hp
  · exact h p hp
  · exact h2 p hp

lemma okL_headD {ll : List (List Char)} (h : ∀ x ∈ ll, '@' ∉ x) : '@' ∉ ll.headD [] := by
  cases ll with
  | nil => simp
  | cons a t => exact h a (by simp)

/-- Character provenance through the whole address parser: when the field
contains no '@', no parsing function can produce an '@' in any of its
string results.  Proved for every fuel by induction, one conjunct per
parsing function. -/
lemma parser_no_at (field : List Char) (hf : '@' ∉ field) : ∀ f : Nat,
    (∀ endchars allowc st q acc, '@' ∉ acc → '@' ∉ (gdLoop field endchars allowc f st q acc).1) ∧
    (∀ beginchar endchars allowc st, '@' ∉ (getdelimited field beginchar endchars allowc f st).1) ∧
    (∀ st, '@' ∉ (getcomment field f st).1) ∧
    (∀ st, '@' ∉ (gotonext field f st).1) ∧
    (∀ ends st acc, '@' ∉ acc → '@' ∉ (gaLoop field ends f st acc).1) ∧
    (∀ st, '@' ∉ (getquote field f st).1) ∧
    (∀ st, '@' ∉ (getdomainliteral field f st).1) ∧
    (∀ st acc, (∀ x ∈ acc, '@' ∉ x) → '@' ∉ (gdomLoop field f st acc).1) ∧
    (∀ st acc, (∀ x ∈ acc, '@' ∉ x) → ∀ x ∈ (gasLoop field f st acc).1, '@' ∉ x) ∧
    (∀ st acc preserve, (∀ x ∈ acc, '@' ∉ x) → ∀ x ∈ (gasTail field f st acc preserve).1, '@' ∉ x) ∧
    (∀ st, '@' ∉ (getaddrspec field f st).1) ∧
    (∀ st acc, (∀ x ∈ acc, '@' ∉ x) → ∀ x ∈ (gplLoop field f st acc).1, '@' ∉ x) ∧
    (∀ st er adlist, '@' ∉ adlist → '@' ∉ (raLoop field f st er adlist).1) ∧
    (∀ st, '@' ∉ (getrouteaddr field f st).1) ∧
    (∀ st, ∀ p ∈ (getaddress field f st).1, '@' ∉ p.2) ∧
    (∀ st acc, (∀ p ∈ acc, '@' ∉ p.2) → ∀ p ∈ (gaGroupLoop field f st acc).1, '@' ∉ p.2) ∧
    (∀ st acc, (∀ p ∈ acc, '@' ∉ p.2) → ∀ p ∈ (galLoop field f st acc).1, '@' ∉ p.2) := by
  intro f
  induction f with
  | zero =>
    exact ⟨fun _ _ _ _ _ h => h, fun _ _ _ _ => List.not_mem_nil _, fun _ => List.not_mem_nil _,
      fun _ => List.not_mem_nil _, fun _ _ _ h => h, fun _ => List.not_mem_nil _,
      fun _ => List.not_mem_nil _, fun _ _ h => noAt_flatten h, fun _ _ h => h,
      fun _ _ _ h => h, fun _ => List.not_mem_nil _, fun _ _ h => h, fun _ _ _ h => h,
      fun _ => List.not_mem_nil _, fun _ p hp => absurd hp (List.not_mem_nil p),
      fun _ _ h => h, fun _ _ h => h⟩
  | succ f ih =>
    obtain ⟨ih_gd, ih_gdel, ih_gc, ih_gn, ih_ga, ih_gq, ih_gdl, ih_gdom, ih_gas, ih_gast,
      ih_gspec, ih_gpl, ih_ra, ih_route, ih_addr, ih_grp, ih_gal⟩ := ih
    refine ⟨?_, ?_, ?_, ?_, ?_, ?_, ?_, ?_, ?_, ?_, ?_, ?_, ?_, ?_, ?_, ?_, ?_⟩
    · intro endchars allowc st q acc hacc
      simp only [gdLoop]
      split
      · rename_i hpos
        split
        · exact ih_gd _ _ _ _ _ (noAt_append hacc (noAt_single (chAt_ne_at hf hpos)))
        · split
          · exact hacc
          · split
            · exact ih_gd _ _ _ _ _ (noAt_append hacc (ih_gc _))
            · split
              · exact ih_gd _ _ _ _ _ hacc
              · exact ih_gd _ _ _ _ _ (noAt_append hacc (noAt_single (chAt_ne_at hf hpos)))
      · exact hacc
    · intro beginchar endchars allowc st
      simp only [getdelimited]
      split
      · exact List.not_mem_nil _
      · exact ih_gd _ _ _ _ _ (List.not_mem_nil _)
    · intro st
      simp only [getcomment]
      exact ih_gdel _ _ _ _
    · intro st
      simp only [gotonext]
      split
      · rename_i hpos
        split
        · refine noAt_append ?_ (ih_gn _)
          split
          · exact List.not_mem_nil _
          · exact noAt_single (chAt_ne_at hf hpos)
        · split
          · exact ih_gn _
          · exact List.not_mem_nil _
      · exact List.not_mem_nil _
    · intro ends st acc hacc
      simp only [gaLoop]
      split
      · rename_i hpos
        split
        · exact hacc
        · exact ih_ga _ _ _ (noAt_append hacc (noAt_single (chAt_ne_at hf hpos)))
      · exact hacc
    · intro st
      simp only [getquote]
      exact ih_gdel _ _ _ _
    · intro st
      simp only [getdomainliteral]
      intro hmem
      rcases List.mem_cons.1 hmem with h1 | h1
      · exact absurd h1 (by decide)
      · rcases List.mem_append.1 h1 with h2 | h2
        · exact ih_gdel _ _ _ _ h2
        · exact absurd h2 (by decide)
    · intro st acc hacc
      simp only [gdomLoop, getatom]
      split
      · rename_i hpos
        split
        · exact ih_gdom _ _ hacc
        · split
          · exact ih_gdom _ _ hacc
          · split
            · exact ih_gdom _ _ (okLL_append hacc (ih_gdl _))
            · split
              · exact ih_gdom _ _ (okLL_append hacc (by decide))
              · split
                · exact List.not_mem_nil _
                · split
                  · exact noAt_flatten hacc
                  · exact ih_gdom _ _ (okLL_append hacc (ih_ga _ _ _ (List.not_mem_nil _)))
      · exact noAt_flatten hacc
    · intro st acc hacc
      simp only [gasLoop, getatom]
      split
      · rename_i hpos
        split
        · refine ih_gast _ _ _ (okLL_append ?_ (by decide))
          split
          · exact okLL_dropLast hacc
          · exact hacc
        · split
          · refine ih_gast _ _ _ (okLL_append hacc ?_)
            intro hmem
            rcases List.mem_append.1 hmem with h1 | h1
            · rcases List.mem_cons.1 h1 with h2 | h2
              · exact absurd h2 (by decide)
              · exact noAt_pyQuote (ih_gq _) h2
            · exact absurd h1 (by decide)
          · split
            · split
              · exact okLL_dropLast hacc
              · exact hacc
            · exact ih_gast _ _ _ (okLL_append hacc (ih_ga _ _ _ (List.not_mem_nil _)))
      · exact hacc
    · intro st acc preserve hacc
      simp only [gasTail]
      split
      · exact ih_gas _ _ (okLL_append hacc (ih_gn _))
      · exact ih_gas _ _ hacc
    · intro st
      simp only [getaddrspec, getdomain]
      split
      · exact noAt_flatten (ih_gas _ _ (fun x hx => absurd hx (List.not_mem_nil x)))
      · rename_i hcond
        push_neg at hcond
        exact absurd hcond.2 (chAt_ne_at hf hcond.1)
    · intro st acc hacc
      simp only [gplLoop, getatom]
      split
      · rename_i hpos
        split
        · exact ih_gpl _ _ hacc
        · split
          · exact ih_gpl _ _ (okLL_append hacc (ih_gq _))
          · split
            · exact ih_gpl _ _ hacc
            · split
              · exact hacc
              · exact ih_gpl _ _ (okLL_append hacc (ih_ga _ _ _ (List.not_mem_nil _)))
      · exact hacc
    · intro st er adlist hadl
      simp only [raLoop]
      split
      · split
        · exact ih_ra _ _ _ hadl
        · split
          · exact hadl
          · split
            · exact ih_ra _ _ _ hadl
            · split
              · exact ih_ra _ _ _ hadl
              · exact ih_gspec _
      · exact hadl
    · intro st
      simp only [getrouteaddr]
      split
      · exact List.not_mem_nil _
      · exact ih_ra _ _ _ (List.not_mem_nil _)
    · intro st p hp
      simp only [getaddress, getphraselist] at hp
      split at hp
      · split at hp
        · rcases List.mem_singleton.1 hp with rfl
          exact okL_headD (ih_gpl _ _ (fun x hx => absurd hx (List.not_mem_nil x)))
        · exact absurd hp (List.not_mem_nil p)
      · split at hp
        · rcases List.mem_singleton.1 hp with rfl
          exact ih_gspec _
        · split at hp
          · exact ih_grp _ _ (fun q hq => absurd hq (List.not_mem_nil q)) p hp
          · split at hp
            · rcases List.mem_singleton.1 hp with rfl
              exact ih_route _
            · split at hp
              · rcases List.mem_singleton.1 hp with rfl
                exact okL_headD (ih_gpl _ _ (fun x hx => absurd hx (List.not_mem_nil x)))
              · split at hp
                · exact absurd hp (List.not_mem_nil p)
                · exact absurd hp (List.not_mem_nil p)
    · intro st acc hacc p hp
      simp only [gaGroupLoop] at hp
      split at hp
      · split at hp
        · exact hacc p hp
        · exact ih_grp _ _ (okP_append hacc (ih_addr _)) p hp
      · exact hacc p hp
    · intro st acc hacc p hp
      simp only [galLoop] at hp
      split at hp
      · refine ih_gal _ _ ?_ p hp
        refine okP_append hacc ?_
        split
        · exact ih_addr _
        · intro q hq
          rcases List.mem_singleton.1 hq with rfl
          exact List.not_mem_nil _
      · exact hacc p hp

/-- With no '@' in the field, no parsed address pair carries an '@' in its
address component. -/
lemma getaddrlist_no_at {field : List Char} (hf : '@' ∉ field) :
    ∀ p ∈ getaddrlist field, '@' ∉ p.2 := by
  intro p hp
  unfold getaddrlist at hp
  obtain ⟨-, -, -, -, -, -, -, -, -, -, -, -, -, -, -, -, hgal⟩ :=
    parser_no_at field hf (parserFuel field)
  exact hgal _ _ (fun q hq => absurd hq (List.not_mem_nil q)) p hp

lemma parseaddr_no_at {s : String} (h : '@' ∉ s.data) : '@' ∉ (parseaddr s).2.data := by
  by_cases hd : s.data = []
  · simp [parseaddr, hd]
  · have hps : parseaddr s =
        (match getaddrlist s.data with
          | [] => ("", "")
          | (r, a) :: _ => (⟨r⟩, ⟨a⟩)) := by
      unfold parseaddr
      rw [if_neg hd]
    rw [hps]
    cases hl : getaddrlist s.data with
    | nil => simp
    | cons p t =>
      obtain ⟨r, a⟩ := p
      have h2 := getaddrlist_no_at h (r, a) (by rw [hl]; exact List.mem_cons_self _ _)
      simpa using h2

lemma is_valid_email_eq_false_of_no_at {s : String} (h : '@' ∉ s.data) :
    is_valid_email s = false := by
  unfold is_valid_email
  simpa using parseaddr_no_at h

/-! ## Lemmas about the filesystem effects of the scanner -/

lemma isdir_makedirs (fs : FS) (p : String) : isdir (makedirs fs p) p = true := by
  have h : normPath p ∈ (makedirs fs p).dirs := by simp [makedirs]
  simpa [isdir] using h

lemma isdir_ensure (fs : FS) (p : String) :
    isdir (if isdir fs p then fs else makedirs fs p) p = true := by
  split
  · rename_i h; exact h
  · exact isdir_makedirs fs p

lemma makedirs_prefixes (fs : FS) (p q : String) (h : q ∈ pathPrefixes p) :
    q ∈ (makedirs fs p).dirs := by
  simp only [makedirs]
  exact List.mem_append.2 (Or.inl (List.mem_append.2 (Or.inr h)))

lemma download_attachment_fs (fs : FS) (att : Attachment) (dir : String) (al : List String) :
    (download_attachment fs att dir al).2.dirs = fs.dirs ∧
    ∀ p ∈ (download_attachment fs att dir al).2.files,
      p ∈ fs.files ∨ p = joinPath dir att.fileName := by
  by_cases hallow : (al.isEmpty || al.contains (splitextExt att.fileName)) = true
  · by_cases hsave : att.saveOk = true
    · have h1 : download_attachment fs att dir al =
          (some ⟨joinPath dir att.fileName, att.fileName, att.uuid⟩,
           ⟨fs.dirs, fs.files ++ [joinPath dir att.fileName]⟩) := by
        unfold download_attachment
        rw [if_pos hallow, if_pos hsave]
      rw [h1]
      refine ⟨rfl, ?_⟩
      intro p hp
      rcases List.mem_append.1 hp with h | h
      · exact Or.inl h
      · exact Or.inr (List.mem_singleton.1 h)
    · have h1 : download_attachment fs att dir al = (none, fs) := by
        unfold download_attachment
        rw [if_pos hallow, if_neg hsave]
      rw [h1]
      exact ⟨rfl, fun p hp => Or.inl hp⟩
  · have h1 : download_attachment fs att dir al = (none, fs) := by
      unfold download_attachment
      rw [if_neg hallow]
    rw [h1]
    exact ⟨rfl, fun p hp => Or.inl hp⟩

lemma downloadAll_fs (dir : String) (al : List String) :
    ∀ (atts : List Attachment) (fs : FS),
      (downloadAll fs atts dir al).2.dirs = fs.dirs ∧
      ∀ p ∈ (downloadAll fs atts dir al).2.files,
        p ∈ fs.files ∨ ∃ a ∈ atts, p = joinPath dir a.fileName := by
  intro atts
  induction atts with
  | nil => intro fs; exact ⟨rfl, fun p hp => Or.inl hp⟩
  | cons a rest ih =>
    intro fs
    have hda := download_attachment_fs fs a dir al
    have hih := ih (download_attachment fs a dir al).2
    constructor
    · show (downloadAll (download_attachment fs a dir al).2 rest dir al).2.dirs = fs.dirs
      rw [hih.1, hda.1]
    · intro p hp
      have hp2 : p ∈ (downloadAll (download_attachment fs a dir al).2 rest dir al).2.files := hp
      rcases hih.2 p hp2 with h | ⟨b, hb, hbp⟩
      · rcases hda.2 p h with h2 | h2
        · exact Or.inl h2
        · exact Or.inr ⟨a, by simp, h2⟩
      · exact Or.inr ⟨b, List.mem_cons_of_mem _ hb, hbp⟩

lemma process_email_fs (fs : FS) (msg : Message) (el : List EmailRecord) (dir : String)
    (al : Option (List String)) :
    (process_email fs msg el dir al).2.dirs = fs.dirs ∧
    ∀ p ∈ (process_email fs msg el dir al).2.files,
      p ∈ fs.files ∨ ∃ a ∈ msg.attachments, p = joinPath dir a.fileName := by
  unfold process_email
  have h := downloadAll_fs dir (al.getD []) msg.attachments fs
  split
  · exact h
  · exact h

lemma processLoop_fs (fp : String) (al : Option (List String)) (ir : Bool) :
    ∀ (msgs : List Message) (fs : FS) (emails : List EmailRecord),
      (processLoop fs msgs ir emails fp al).2.dirs = fs.dirs ∧
      ∀ p ∈ (processLoop fs msgs ir emails fp al).2.files,
        p ∈ fs.files ∨ ∃ m ∈ msgs, ∃ a ∈ m.attachments, p = joinPath fp a.fileName := by
  intro msgs
  induction msgs with
  | nil => intro fs emails; exact ⟨rfl, fun p hp => Or.inl hp⟩
  | cons m rest ih =>
    intro fs emails
    unfold processLoop
    split
    · have hpe := process_email_fs fs m emails fp al
      have hih := ih (process_email fs m emails fp al).2 (process_email fs m emails fp al).1
      constructor
      · rw [hih.1, hpe.1]
      · intro p hp
        rcases hih.2 p hp with h | ⟨m2, hm2, ha⟩
        · rcases hpe.2 p h with h2 | ⟨a, haa, hap⟩
          · exact Or.inl h2
          · exact Or.inr ⟨m, by simp, a, haa, hap⟩
        · exact Or.inr ⟨m2, List.mem_cons_of_mem _ hm2, ha⟩
    · have hih := ih fs emails
      refine ⟨hih.1, ?_⟩
      intro p hp
      rcases hih.2 p hp with h | ⟨m2, hm2, ha⟩
      · exact Or.inl h
      · exact Or.inr ⟨m2, List.mem_cons_of_mem _ hm2, ha⟩

lemma mem_insertDesc {m x : Message} : ∀ {l : List Message}, x ∈ insertDesc m l → x = m ∨ x ∈ l := by
  intro l
  induction l with
  | nil => intro h; simp [insertDesc] at h; exact Or.inl h
  | cons a t ih =>
    intro h
    simp only [insertDesc] at h
    split at h
    · rcases List.mem_cons.1 h with h1 | h1
      · exact Or.inl h1
      · exact Or.inr h1
    · rcases List.mem_cons.1 h with h1 | h1
      · exact Or.inr (by simp [h1])
      · rcases ih h1 with h2 | h2
        · exact Or.inl h2
        · exact Or.inr (List.mem_cons_of_mem _ h2)

lemma mem_sortByReceivedDesc {x : Message} :
    ∀ {l : List Message}, x ∈ sortByReceivedDesc l → x ∈ l := by
  intro l
  induction l with
  | nil => intro h; simp [sortByReceivedDesc] at h
  | cons a t ih =>
    intro h
    simp only [sortByReceivedDesc] at h
    rcases mem_insertDesc h with h1 | h1
    · simp [h1]
    · exact List.mem_cons_of_mem _ (ih h1)

lemma downloadAll_length (dir : String) (al : List String) :
    ∀ (atts : List Attachment) (fs : FS),
      (downloadAll fs atts dir al).1.length =
        (atts.filter fun a =>
          (al.isEmpty || al.contains (splitextExt a.fileName)) && a.saveOk).length := by
  intro atts
  induction atts with
  | nil => intro fs; rfl
  | cons a rest ih =>
    intro fs
    have hstep : downloadAll fs (a :: rest) dir al =
        ((match (download_attachment fs a dir al).1 with
          | some d => d :: (downloadAll (download_attachment fs a dir al).2 rest dir al).1
          | none => (downloadAll (download_attachment fs a dir al).2 rest dir al).1),
         (downloadAll (download_attachment fs a dir al).2 rest dir al).2) := rfl
    by_cases hallow : (al.isEmpty || al.contains (splitextExt a.fileName)) = true
    · by_cases hsave : a.saveOk = true
      · have h1 : download_attachment fs a dir al =
            (some ⟨joinPath dir a.fileName, a.fileName, a.uuid⟩,
             ⟨fs.dirs, fs.files ++ [joinPath dir a.fileName]⟩) := by
          unfold download_attachment
          rw [if_pos hallow, if_pos hsave]
        have hallow2 : al = [] ∨ splitextExt a.fileName ∈ al := by simpa using hallow
        rw [hstep, h1]
        simp [List.filter_cons, hallow2, hsave, ih]
      · have hs : a.saveOk = false := by simpa using hsave
        have h1 : download_attachment fs a dir al = (none, fs) := by
          unfold download_attachment
          rw [if_pos hallow, if_neg hsave]
        rw [hstep, h1]
        simp [List.filter_cons, hs, ih]
    · obtain ⟨ha1, ha2⟩ : ¬al = [] ∧ splitextExt a.fileName ∉ al := by simpa using hallow
      have h1 : download_attachment fs a dir al = (none, fs) := by
        unfold download_attachment
        rw [if_neg hallow]
      rw [hstep, h1]
      simp [List.filter_cons, ha1, ha2, ih]

lemma mem_restrictSubject {m : Message} {l : List Message} {subject : String}
    (h : m ∈ restrictSubject l subject) : m ∈ l := (List.mem_filter.1 h).1

lemma mem_restrictSince {m : Message} {l : List Message} {t : Int}
    (h : m ∈ restrictSince l t) : m ∈ l := (List.mem_filter.1 h).1

lemma get_emails_invalid (env : OutlookEnv) (fs : FS)
    (email subject folder_name output_dir : String) (al : Option (List String))
    (ir : Bool) (since : Option Int) (h : is_valid_email email = false) :
    get_emails env fs email subject folder_name output_dir al ir since =
      ([], if isdir fs (create_folder env.documentsPath output_dir) then fs
           else makedirs fs (create_folder env.documentsPath output_dir)) := by
  simp only [get_emails]
  rw [if_pos h]

lemma get_emails_no_folder (env : OutlookEnv) (fs : FS)
    (email subject folder_name output_dir : String) (al : Option (List String))
    (ir : Bool) (since : Option Int)
    (h2 : env.inboxSubfolders.find? (fun fo => fo.name = folder_name) = none) :
    (get_emails env fs email subject folder_name output_dir al ir since).1 = [] := by
  simp only [get_emails]
  by_cases h : is_valid_email email = false
  · rw [if_pos h]
  · rw [if_neg h]
    by_cases hd : env.dispatchOk = false
    · rw [if_pos hd]
    · rw [if_neg hd, h2]

lemma ensure_files (fs : FS) (p : String) :
    (if isdir fs p then fs else makedirs fs p).files = fs.files := by
  split <;> rfl

lemma get_emails_fs (env : OutlookEnv) (fs : FS)
    (email subject folder_name output_dir : String) (al : Option (List String))
    (ir : Bool) (since : Option Int) :
    (get_emails env fs email subject folder_name output_dir al ir since).2.dirs =
      (if isdir fs (create_folder env.documentsPath output_dir) then fs
       else makedirs fs (create_folder env.documentsPath output_dir)).dirs ∧
    ∀ p ∈ (get_emails env fs email subject folder_name output_dir al ir since).2.files,
      p ∈ fs.files ∨
      ∃ fo ∈ env.inboxSubfolders, ∃ m ∈ fo.items, ∃ a ∈ m.attachments,
        p = joinPath (create_folder env.documentsPath output_dir) a.fileName := by
  have hfiles := ensure_files fs (create_folder env.documentsPath output_dir)
  simp only [get_emails]
  split
  · exact ⟨rfl, fun p hp => Or.inl (by simpa [hfiles] using hp)⟩
  · split
    · exact ⟨rfl, fun p hp => Or.inl (by simpa [hfiles] using hp)⟩
    · split
      · exact ⟨rfl, fun p hp => Or.inl (by simpa [hfiles] using hp)⟩
      · rename_i fo heq
        have hfo : fo ∈ env.inboxSubfolders := List.mem_of_find?_eq_some heq
        have hloop := processLoop_fs (create_folder env.documentsPath output_dir) al ir
          (sortByReceivedDesc (match since with
            | some t => restrictSince (restrictSubject fo.items subject) t
            | none => restrictSubject fo.items subject))
          (if isdir fs (create_folder env.documentsPath output_dir) then fs
           else makedirs fs (create_folder env.documentsPath output_dir)) []
        refine ⟨hloop.1, ?_⟩
        intro p hp
        rcases hloop.2 p hp with h | ⟨m, hm, a, ha, hpe⟩
        · exact Or.inl (by simpa [hfiles] using h)
        · have hm2 := mem_sortByReceivedDesc hm
          have hm3 : m ∈ fo.items := by
            cases since with
            | none => exact mem_restrictSubject hm2
            | some t => exact mem_restrictSubject (mem_restrictSince hm2)
          exact Or.inr ⟨fo, hfo, m, hm3, a, ha, hpe⟩

/-! ## Lemmas about send_email_via_outlook -/

lemma addEmbeddedImages_ok (env : SendEnv) :
    ∀ (imgs : List String) (item : MailItem),
      (∀ p ∈ imgs, pathExists env p = true) →
      ∃ item2, addEmbeddedImages env item imgs = .ok item2 := by
  intro imgs
  induction imgs with
  | nil => intro item h; exact ⟨item, rfl⟩
  | cons p rest ih =>
    intro item h
    have hp : pathExists env p = true := h p (by simp)
    simp only [addEmbeddedImages, hp, if_true]
    exact ih _ fun q hq => h q (List.mem_cons_of_mem _ hq)

lemma addAttachments_eq (env : SendEnv) :
    ∀ (atts : List SendAttachment) (item : MailItem),
      addAttachments env item atts =
        { item with attachedPaths := item.attachedPaths ++
            ((atts.map fun a => abspath env.cwd a.path).filter fun p => pathExists env p) } := by
  intro atts
  induction atts with
  | nil => intro item; simp [addAttachments]
  | cons a rest ih =>
    intro item
    by_cases hp : pathExists env (abspath env.cwd a.path) = true
    · simp only [addAttachments, List.map_cons, List.filter_cons, hp, if_true]
      rw [ih]
      simp [List.append_assoc]
    · have hp2 : pathExists env (abspath env.cwd a.path) = false := by simpa using hp
      simp only [addAttachments, List.map_cons, List.filter_cons, hp2]
      exact ih item

lemma send_not_installed (env : SendEnv) (toAddr subject body : String)
    (atts : Option (List SendAttachment)) (html : Bool) (cc bcc : Option String)
    (imgs : Option (List String)) (h : env.outlookInstalled = false) :
    send_email_via_outlook env toAddr subject body atts html cc bcc imgs =
      ("Outlook is not installed or accessible.", none) := by
  simp only [send_email_via_outlook, is_outlook_installed]
  rw [if_pos h]

lemma send_invalid_recipient (env : SendEnv) (toAddr subject body : String)
    (atts : Option (List SendAttachment)) (html : Bool) (cc bcc : Option String)
    (imgs : Option (List String)) (h1 : env.outlookInstalled = true)
    (h2 : is_valid_email toAddr = false) :
    send_email_via_outlook env toAddr subject body atts html cc bcc imgs =
      ("Invalid email addresses provided: " ++ toAddr, none) := by
  simp only [send_email_via_outlook, is_outlook_installed]
  rw [if_neg (by simp [h1]), if_pos h2]

lemma send_success (env : SendEnv) (toAddr subject body : String)
    (atts : List SendAttachment) (html : Bool) (cc bcc : Option String)
    (h1 : env.outlookInstalled = true) (h2 : is_valid_email toAddr = true)
    (h3 : env.sendRaises = none) :
    send_email_via_outlook env toAddr subject body (some atts) html cc bcc none =
      ("Email sent successfully.",
       some { toRecip := toAddr, subject := subject, cc := cc, bcc := bcc,
              htmlBody := if html then some body else none,
              plainBody := if html then none else some body,
              attachedPaths := (atts.map fun a => abspath env.cwd a.path).filter
                (fun p => pathExists env p),
              inlineImages := [] }) := by
  simp only [send_email_via_outlook, is_outlook_installed]
  rw [if_neg (by simp [h1]), if_neg (by simp [h2]), h3]
  simp [addAttachments_eq]

lemma send_status_cases (env : SendEnv) (toAddr subject body : String)
    (atts : Option (List SendAttachment)) (html : Bool) (cc bcc : Option String)
    (imgs : Option (List String)) :
    (send_email_via_outlook env toAddr subject body atts html cc bcc imgs).1 =
        "Outlook is not installed or accessible." ∨
    (send_email_via_outlook env toAddr subject body atts html cc bcc imgs).1 =
        "Invalid email addresses provided: " ++ toAddr ∨
    (∃ e, (send_email_via_outlook env toAddr subject body atts html cc bcc imgs).1 =
        "Error sending email: " ++ e) ∨
    (send_email_via_outlook env toAddr subject body atts html cc bcc imgs).1 =
        "Email sent successfully." := by
  simp only [send_email_via_outlook]
  split
  · exact Or.inl rfl
  · split
    · exact Or.inr (Or.inl rfl)
    · split
      · rename_i e heq
        exact Or.inr (Or.inr (Or.inl ⟨e, rfl⟩))
      · split
        · rename_i e heq
          exact Or.inr (Or.inr (Or.inl ⟨e, rfl⟩))
        · exact Or.inr (Or.inr (Or.inr rfl))

lemma ne_of_data_getElem {a b : String} (n : Nat)
    (h : a.data[n]? ≠ b.data[n]?) : a ≠ b := fun he => h (by rw [he])

lemma append_data_getElem (b t : String) (n : Nat) (hn : n < b.data.length) :
    (b ++ t).data[n]? = b.data[n]? := by
  rw [String.data_append]
  exact List.getElem?_append_left hn

lemma isdir_eq_of_dirs {fs1 fs2 : FS} (h : fs1.dirs = fs2.dirs) (p : String) :
    isdir fs1 p = isdir fs2 p := by
  simp [isdir, h]

/-! ## Claim theorems -/

/-- C1 counterexample: on the two-character input quote-at, is_valid_email
returns true although the parsed address component is just "@" and the
domain component (the text after the '@') is empty, so the claimed
equivalence "true iff a non-empty domain component is present" fails. -/
theorem C1_counterexample :
    is_valid_email "\"@" = true ∧ (parseaddr "\"@").2 = "@" ∧
    specHasNonemptyDomain "\"@" = false :=
  ⟨by decide, by decide, by decide⟩

/-- C1 (amended): is_valid_email returns true iff the address component
extracted by parseaddr contains '@'; consequently it returns false for
every string containing no '@', true for "user@domain.com" and false for
"user@".  A non-empty domain component is not guaranteed (see the
counterexample). -/
theorem C1_is_valid_email :
    (∀ s : String, '@' ∉ s.data → is_valid_email s = false) ∧
    is_valid_email "user@domain.com" = true ∧
    is_valid_email "user@" = false ∧
    (∀ s : String, is_valid_email s = (parseaddr s).2.data.contains '@') :=
  ⟨fun _ h => is_valid_email_eq_false_of_no_at h, by decide, by decide, fun _ => rfl⟩

/-- C1 witness: the universal part of the amended theorem evaluated at the
concrete input "hello", which contains no '@'. -/
theorem C1_witness : is_valid_email "hello" = false :=
  C1_is_valid_email.1 "hello" (by decide)

/-- C2: the scanner's message filter, written in the source as
`not include_read and msg.UnRead or include_read`, passes a message iff
include_read is true or the message is unread; with include_read = true
every message passes regardless of read state, and with
include_read = false exactly the unread ones pass. -/
theorem C2_read_filter :
    (∀ (ir : Bool) (m : Message), passesReadFilter ir m = (ir || m.unread)) ∧
    (∀ m : Message, passesReadFilter true m = true) ∧
    (∀ m : Message, passesReadFilter false m = m.unread) := by
  refine ⟨?_, ?_, ?_⟩
  · intro ir m; cases ir <;> simp [passesReadFilter]
  · intro m; simp [passesReadFilter]
  · intro m; simp [passesReadFilter]

/-- C3: get_emails puts the destination directory (with all its parent
prefixes) into the filesystem before the message loop runs, the loop never
changes the set of directories (so the directory exists before any
attachment write and still at return), and every file the call adds lives
directly in the destination directory under some attachment's declared
filename. -/
theorem C3_destination_dir (env : OutlookEnv) (fs : FS)
    (email subject folder_name output_dir : String) (al : Option (List String))
    (ir : Bool) (since : Option Int) :
    isdir (if isdir fs (create_folder env.documentsPath output_dir) then fs
           else makedirs fs (create_folder env.documentsPath output_dir))
      (create_folder env.documentsPath output_dir) = true ∧
    (∀ q ∈ pathPrefixes (create_folder env.documentsPath output_dir),
       q ∈ (makedirs fs (create_folder env.documentsPath output_dir)).dirs) ∧
    isdir (get_emails env fs email subject folder_name output_dir al ir since).2
      (create_folder env.documentsPath output_dir) = true ∧
    (∀ p ∈ (get_emails env fs email subject folder_name output_dir al ir since).2.files,
       p ∈ fs.files ∨
       ∃ fo ∈ env.inboxSubfolders, ∃ m ∈ fo.items, ∃ a ∈ m.attachments,
         p = joinPath (create_folder env.documentsPath output_dir) a.fileName) := by
  have hge := get_emails_fs env fs email subject folder_name output_dir al ir since
  refine ⟨isdir_ensure fs _, fun q hq => makedirs_prefixes fs _ q hq, ?_, hge.2⟩
  rw [isdir_eq_of_dirs hge.1]
  exact isdir_ensure fs _

/-- C3 witness: the theorem instantiated on a one-message mailbox whose
single attachment gets saved; the saved file sits in the destination
directory under its declared name, which still exists at return. -/
theorem C3_witness :
    isdir (get_emails envC3 ⟨[], []⟩ "user@domain.com" "sub" "F" "out" none false none).2
      (create_folder envC3.documentsPath "out") = true ∧
    ("C:\\U\\out\\a.pdf" ∈ (⟨[], []⟩ : FS).files ∨
     ∃ fo ∈ envC3.inboxSubfolders, ∃ m ∈ fo.items, ∃ a ∈ m.attachments,
       "C:\\U\\out\\a.pdf" = joinPath (create_folder envC3.documentsPath "out") a.fileName) :=
  ⟨(C3_destination_dir envC3 ⟨[], []⟩ "user@domain.com" "sub" "F" "out" none false none).2.2.1,
   (C3_destination_dir envC3 ⟨[], []⟩ "user@domain.com" "sub" "F" "out" none false none).2.2.2
     "C:\\U\\out\\a.pdf" (by decide)⟩

/-- C4: send_email_via_outlook is a total function of the modelled state
(so no input makes it raise), each failure mode returns its own
human-readable status (client unreachable; invalid recipient; any
exception inside the try block, surfaced through the catch-all), every
call yields one of the three failure statuses or the success status, and
the statuses are pairwise distinct for every recipient string and
exception text. -/
theorem C4_send_failure_statuses :
    (∀ (env : SendEnv) (toAddr subject body : String) (atts : Option (List SendAttachment))
       (html : Bool) (cc bcc : Option String) (imgs : Option (List String)),
       env.outlookInstalled = false →
       send_email_via_outlook env toAddr subject body atts html cc bcc imgs =
         ("Outlook is not installed or accessible.", none)) ∧
    (∀ (env : SendEnv) (toAddr subject body : String) (atts : Option (List SendAttachment))
       (html : Bool) (cc bcc : Option String) (imgs : Option (List String)),
       env.outlookInstalled = true → is_valid_email toAddr = false →
       send_email_via_outlook env toAddr subject body atts html cc bcc imgs =
         ("Invalid email addresses provided: " ++ toAddr, none)) ∧
    (∀ (env : SendEnv) (toAddr subject body : String) (atts : Option (List SendAttachment))
       (html : Bool) (cc bcc : Option String) (imgs : Option (List String)),
       (send_email_via_outlook env toAddr subject body atts html cc bcc imgs).1 =
           "Outlook is not installed or accessible." ∨
       (send_email_via_outlook env toAddr subject body atts html cc bcc imgs).1 =
           "Invalid email addresses provided: " ++ toAddr ∨
       (∃ e, (send_email_via_outlook env toAddr subject body atts html cc bcc imgs).1 =
           "Error sending email: " ++ e) ∨
       (send_email_via_outlook env toAddr subject body atts html cc bcc imgs).1 =
           "Email sent successfully.") ∧
    (∀ toAddr e : String,
       "Outlook is not installed or accessible." ≠
         "Invalid email addresses provided: " ++ toAddr ∧
       "Outlook is not installed or accessible." ≠ "Error sending email: " ++ e ∧
       ("Invalid email addresses provided: " ++ toAddr) ≠ "Error sending email: " ++ e ∧
       "Outlook is not installed or accessible." ≠ "Email sent successfully." ∧
       ("Invalid email addresses provided: " ++ toAddr) ≠ "Email sent successfully." ∧
       ("Error sending email: " ++ e) ≠ "Email sent successfully.") := by
  refine ⟨?_, ?_, ?_, ?_⟩
  · intro env toAddr subject body atts html cc bcc imgs h
    exact send_not_installed env toAddr subject body atts html cc bcc imgs h
  · intro env toAddr subject body atts html cc bcc imgs h1 h2
    exact send_invalid_recipient env toAddr subject body atts html cc bcc imgs h1 h2
  · intro env toAddr subject body atts html cc bcc imgs
    exact send_status_cases env toAddr subject body atts html cc bcc imgs
  · intro toAddr e
    refine ⟨?_, ?_, ?_, ?_, ?_, ?_⟩
    · apply ne_of_data_getElem 0
      rw [append_data_getElem _ _ 0 (by decide)]
      decide
    · apply ne_of_data_getElem 0
      rw [append_data_getElem _ _ 0 (by decide)]
      decide
    · apply ne_of_data_getElem 0
      rw [append_data_getElem _ _ 0 (by decide)]
      rw [append_data_getElem _ _ 0 (by decide)]
      decide
    · decide
    · apply ne_of_data_getElem 0
      rw [append_data_getElem _ _ 0 (by decide)]
      decide
    · apply ne_of_data_getElem 1
      rw [append_data_getElem _ _ 1 (by decide)]
      decide

/-- C4 witness: the unreachable-client case and the invalid-recipient case
of the theorem evaluated at concrete environments and inputs. -/
theorem C4_witness :
    send_email_via_outlook envC4 "user@domain.com" "s" "b" none false none none none =
      ("Outlook is not installed or accessible.", none) ∧
    send_email_via_outlook envC4b "nope" "s" "b" none false none none none =
      ("Invalid email addresses provided: " ++ "nope", none) :=
  ⟨C4_send_failure_statuses.1 envC4 "user@domain.com" "s" "b" none false none none none rfl,
   C4_send_failure_statuses.2.1 envC4b "nope" "s" "b" none false none none none rfl (by decide)⟩

/-- C5: for every message whose sender resolves, process_email appends
exactly one record; its files list is the downloadAll result, whose length
equals the number of attachments that both pass the allow-list and save
without error, so an individually failing save is excluded from files and
never prevents the record. -/
theorem C5_record_per_message (fs : FS) (msg : Message) (emails : List EmailRecord)
    (dir : String) (al : Option (List String)) (smtp : String)
    (h : msg.senderSmtp = some smtp) :
    process_email fs msg emails dir al =
      (emails ++
        [⟨msg.subject, msg.subject, msg.conversationId, smtp, msg.senderName, msg.body,
          (downloadAll fs msg.attachments dir (al.getD [])).1, "pending"⟩],
       (downloadAll fs msg.attachments dir (al.getD [])).2) ∧
    (downloadAll fs msg.attachments dir (al.getD [])).1.length =
      (msg.attachments.filter fun a =>
        ((al.getD []).isEmpty || (al.getD []).contains (splitextExt a.fileName)) &&
          a.saveOk).length := by
  refine ⟨?_, downloadAll_length dir (al.getD []) msg.attachments fs⟩
  simp only [process_email]
  rw [h]

/-- C5 witness: the theorem on a message with three attachments, of which
one fails the allow-list and one fails its save; the record is still
produced and files has exactly one entry. -/
theorem C5_witness :
    process_email ⟨[], []⟩ msgC5 [] "dest" (some [".pdf"]) =
      ([] ++
        [⟨msgC5.subject, msgC5.subject, msgC5.conversationId, "x@y.z", msgC5.senderName,
          msgC5.body,
          (downloadAll ⟨[], []⟩ msgC5.attachments "dest" ((some [".pdf"]).getD [])).1,
          "pending"⟩],
       (downloadAll ⟨[], []⟩ msgC5.attachments "dest" ((some [".pdf"]).getD [])).2) ∧
    (downloadAll ⟨[], []⟩ msgC5.attachments "dest" ((some [".pdf"]).getD [])).1.length =
      (msgC5.attachments.filter fun a =>
        (((some [".pdf"]).getD []).isEmpty ||
          ((some [".pdf"]).getD []).contains (splitextExt a.fileName)) && a.saveOk).length :=
  C5_record_per_message ⟨[], []⟩ msgC5 [] "dest" (some [".pdf"]) "x@y.z" rfl

/-- C6: get_emails returns the empty list (and, being a total function of
the modelled state, raises nothing) when the account address fails
validation, and likewise when folder_name matches no immediate child of
the default inbox folder. -/
theorem C6_empty_on_bad_input :
    (∀ (env : OutlookEnv) (fs : FS) (email subject folder_name output_dir : String)
       (al : Option (List String)) (ir : Bool) (since : Option Int),
       is_valid_email email = false →
       (get_emails env fs email subject folder_name output_dir al ir since).1 = []) ∧
    (∀ (env : OutlookEnv) (fs : FS) (email subject folder_name output_dir : String)
       (al : Option (List String)) (ir : Bool) (since : Option Int),
       env.inboxSubfolders.find? (fun fo => fo.name = folder_name) = none →
       (get_emails env fs email subject folder_name output_dir al ir since).1 = []) := by
  constructor
  · intro env fs email subject folder_name output_dir al ir since h
    rw [get_emails_invalid env fs email subject folder_name output_dir al ir since h]
  · intro env fs email subject folder_name output_dir al ir since h2
    exact get_emails_no_folder env fs email subject folder_name output_dir al ir since h2

/-- C6 witness: the theorem at a concrete mailbox, once with an invalid
address and once with a folder name that matches no inbox subfolder. -/
theorem C6_witness :
    (get_emails envC6 ⟨[], []⟩ "nope" "s" "F" "out" none false none).1 = [] ∧
    (get_emails envC6 ⟨[], []⟩ "user@domain.com" "s" "G" "out" none false none).1 = [] :=
  ⟨C6_empty_on_bad_input.1 envC6 ⟨[], []⟩ "nope" "s" "F" "out" none false none (by decide),
   C6_empty_on_bad_input.2 envC6 ⟨[], []⟩ "user@domain.com" "s" "G" "out" none false none
     (by decide)⟩

lemma download_attachment_disallowed (fs : FS) (att : Attachment) (dir : String)
    (al : List String) (hc : al.contains (splitextExt att.fileName) = false)
    (hne : al ≠ []) : (download_attachment fs att dir al).1 = none := by
  have he : al.isEmpty = false := by
    cases al with
    | nil => exact absurd rfl hne
    | cons a t => rfl
  have hallow : (al.isEmpty || al.contains (splitextExt att.fileName)) = false := by
    rw [he, hc]; rfl
  unfold download_attachment
  rw [if_neg (by rw [hallow]; decide)]

lemma download_attachment_isSome_eq (fs : FS) (att : Attachment) (dir : String)
    (al : List String) (hs : att.saveOk = true) :
    (download_attachment fs att dir al).1.isSome =
      (al.isEmpty || al.contains (splitextExt att.fileName)) := by
  by_cases hallow : (al.isEmpty || al.contains (splitextExt att.fileName)) = true
  · unfold download_attachment
    rw [if_pos hallow, if_pos hs, hallow]
    rfl
  · have h2 : (al.isEmpty || al.contains (splitextExt att.fileName)) = false := by
      simpa using hallow
    unfold download_attachment
    rw [if_neg hallow, h2]
    rfl

/-- C7: with an empty allow-list download_attachment accepts every
attachment (returning a record whenever the save succeeds); with a
non-empty allow-list a record comes back iff the extension of the declared
filename, leading dot included, is in the list — absent otherwise,
whatever the save would have done; in particular with [".pdf"] the file
"x.docx" yields none and "x.pdf" yields a record. -/
theorem C7_allow_list :
    (∀ (fs : FS) (att : Attachment) (dir : String),
       att.saveOk = true →
       (download_attachment fs att dir []).1 =
         some ⟨joinPath dir att.fileName, att.fileName, att.uuid⟩) ∧
    (∀ (fs : FS) (att : Attachment) (dir : String) (al : List String),
       att.saveOk = true →
       (download_attachment fs att dir al).1.isSome =
         (al.isEmpty || al.contains (splitextExt att.fileName))) ∧
    (∀ (fs : FS) (att : Attachment) (dir : String) (al : List String),
       al.contains (splitextExt att.fileName) = false → al ≠ [] →
       (download_attachment fs att dir al).1 = none) ∧
    (∀ (fs : FS) (dir uuid : String) (save : Bool),
       (download_attachment fs ⟨"x.docx", uuid, save⟩ dir [".pdf"]).1 = none) ∧
    (∀ (fs : FS) (dir uuid : String),
       (download_attachment fs ⟨"x.pdf", uuid, true⟩ dir [".pdf"]).1.isSome = true) := by
  refine ⟨?_, fun fs att dir al hs => download_attachment_isSome_eq fs att dir al hs,
    fun fs att dir al hc hne => download_attachment_disallowed fs att dir al hc hne, ?_, ?_⟩
  · intro fs att dir hs
    unfold download_attachment
    rw [if_pos (by simp), if_pos hs]
  · intro fs dir uuid save
    exact download_attachment_disallowed fs ⟨"x.docx", uuid, save⟩ dir [".pdf"]
      (show ([".pdf"] : List String).contains (splitextExt "x.docx") = false from by decide)
      (by decide)
  · intro fs dir uuid
    rw [download_attachment_isSome_eq fs ⟨"x.pdf", uuid, true⟩ dir [".pdf"] rfl]
    exact show ([".pdf"].isEmpty ||
      ([".pdf"] : List String).contains (splitextExt "x.pdf")) = true from by decide

/-- C7 witness: the three record-or-absent conjuncts of the theorem at
concrete attachments. -/
theorem C7_witness :
    (download_attachment ⟨[], []⟩ ⟨"a.txt", "u", true⟩ "d" []).1 =
      some ⟨joinPath "d" "a.txt", "a.txt", "u"⟩ ∧
    (download_attachment ⟨[], []⟩ ⟨"x.docx", "u", true⟩ "d" [".pdf"]).1 = none ∧
    (download_attachment ⟨[], []⟩ ⟨"x.pdf", "u", true⟩ "d" [".pdf"]).1.isSome = true :=
  ⟨C7_allow_list.1 ⟨[], []⟩ ⟨"a.txt", "u", true⟩ "d" rfl,
   C7_allow_list.2.2.2.1 ⟨[], []⟩ "d" "u" true,
   C7_allow_list.2.2.2.2 ⟨[], []⟩ "d" "u"⟩

/-- C8: whenever download_attachment returns a record rather than none,
the record's path is among the files of the filesystem state in force at
the moment of return — no partial or placeholder record is produced. -/
theorem C8_record_path_exists (fs : FS) (att : Attachment) (dir : String)
    (al : List String) (rec : AttachmentRecord) (fs2 : FS)
    (h : download_attachment fs att dir al = (some rec, fs2)) :
    rec.path ∈ fs2.files := by
  by_cases hallow : (al.isEmpty || al.contains (splitextExt att.fileName)) = true
  · by_cases hsave : att.saveOk = true
    · have h1 : download_attachment fs att dir al =
          (some ⟨joinPath dir att.fileName, att.fileName, att.uuid⟩,
           ⟨fs.dirs, fs.files ++ [joinPath dir att.fileName]⟩) := by
        unfold download_attachment
        rw [if_pos hallow, if_pos hsave]
      rw [h1] at h
      injection h with h2 h3
      injection h2 with h2
      subst h2
      subst h3
      simp
    · have h1 : download_attachment fs att dir al = (none, fs) := by
        unfold download_attachment
        rw [if_pos hallow, if_neg hsave]
      rw [h1] at h
      injection h with h2 h3
      injection h2
  · have h1 : download_attachment fs att dir al = (none, fs) := by
      unfold download_attachment
      rw [if_neg hallow]
    rw [h1] at h
    injection h with h2 h3
    injection h2

/-- C8 witness: the theorem at a concrete successful download; the
returned record's path is in the returned filesystem. -/
theorem C8_witness :
    ("d\\a.pdf" : String) ∈ (⟨[], ["d\\a.pdf"]⟩ : FS).files :=
  C8_record_path_exists ⟨[], []⟩ ⟨"a.pdf", "u", true⟩ "d" [] ⟨"d\\a.pdf", "a.pdf", "u"⟩
    ⟨[], ["d\\a.pdf"]⟩ (by decide)

/-- C9: when Outlook is reachable, the recipient validates and Send does
not raise, a call whose attachments contain non-existent paths still
sends: the status is the success status, the sent item carries exactly the
attachments whose absolute paths exist, and every missing path is
omitted. -/
theorem C9_missing_attachment_skipped (env : SendEnv) (toAddr subject body : String)
    (atts : List SendAttachment) (html : Bool) (cc bcc : Option String)
    (h1 : env.outlookInstalled = true) (h2 : is_valid_email toAddr = true)
    (h3 : env.sendRaises = none) :
    (send_email_via_outlook env toAddr subject body (some atts) html cc bcc none).1 =
      "Email sent successfully." ∧
    ∃ item, (send_email_via_outlook env toAddr subject body (some atts) html cc bcc none).2 =
        some item ∧
      item.attachedPaths =
        (atts.map fun a => abspath env.cwd a.path).filter (fun p => pathExists env p) ∧
      ∀ a ∈ atts, pathExists env (abspath env.cwd a.path) = false →
        abspath env.cwd a.path ∉ item.attachedPaths := by
  have hs := send_success env toAddr subject body atts html cc bcc h1 h2 h3
  rw [hs]
  refine ⟨rfl, ⟨_, rfl, rfl, ?_⟩⟩
  intro a ha hmiss hmem
  have h4 := (List.mem_filter.1 hmem).2
  rw [hmiss] at h4
  exact Bool.false_ne_true h4

/-- C9 witness: the theorem at a concrete environment where one of the two
attachment paths does not exist; the send succeeds and only the existing
path is attached. -/
theorem C9_witness :
    (send_email_via_outlook envC9 "user@domain.com" "s" "b"
       (some [⟨"C:\\ok.txt"⟩, ⟨"C:\\missing.txt"⟩]) false none none none).1 =
      "Email sent successfully." ∧
    ∃ item, (send_email_via_outlook envC9 "user@domain.com" "s" "b"
        (some [⟨"C:\\ok.txt"⟩, ⟨"C:\\missing.txt"⟩]) false none none none).2 = some item ∧
      item.attachedPaths =
        (([⟨"C:\\ok.txt"⟩, ⟨"C:\\missing.txt"⟩] : List SendAttachment).map
          fun a => abspath envC9.cwd a.path).filter (fun p => pathExists envC9 p) ∧
      ∀ a ∈ ([⟨"C:\\ok.txt"⟩, ⟨"C:\\missing.txt"⟩] : List SendAttachment),
        pathExists envC9 (abspath envC9.cwd a.path) = false →
        abspath envC9.cwd a.path ∉ item.attachedPaths :=
  C9_missing_attachment_skipped envC9 "user@domain.com" "s" "b"
    [⟨"C:\\ok.txt"⟩, ⟨"C:\\missing.txt"⟩] false none none rfl (by decide) rfl

/-- C10: the attachment destination is Documents\output_dir with a
trailing separator — derived from the shell's Documents folder, not the
caller-supplied path taken literally — and it is created before the
address validation, so a call with an invalid account address returns the
empty list yet leaves the directory created on the filesystem. -/
theorem C10_dir_created_even_when_invalid :
    (∀ documentsPath output_dir : String,
       create_folder documentsPath output_dir =
         joinPath (joinPath documentsPath output_dir) "") ∧
    create_folder "C:\\Users\\u\\Documents" "out" = "C:\\Users\\u\\Documents\\out\\" ∧
    ("C:\\Users\\u\\Documents\\out\\" : String) ≠ "out" ∧
    (∀ (env : OutlookEnv) (fs : FS) (email subject folder_name output_dir : String)
       (al : Option (List String)) (ir : Bool) (since : Option Int),
       is_valid_email email = false →
       (get_emails env fs email subject folder_name output_dir al ir since).1 = [] ∧
       isdir (get_emails env fs email subject folder_name output_dir al ir since).2
         (create_folder env.documentsPath output_dir) = true) := by
  refine ⟨fun d o => rfl, by decide, by decide, ?_⟩
  intro env fs email subject folder_name output_dir al ir since h
  rw [get_emails_invalid env fs email subject folder_name output_dir al ir since h]
  exact ⟨rfl, isdir_ensure fs _⟩

/-- C10 witness: a concrete call with an invalid account address returns
no records while the destination directory exists afterwards. -/
theorem C10_witness :
    (get_emails ⟨"C:\\U", true, []⟩ ⟨[], []⟩ "nope" "s" "F" "out" none false none).1 = [] ∧
    isdir (get_emails ⟨"C:\\U", true, []⟩ ⟨[], []⟩ "nope" "s" "F" "out" none false none).2
      (create_folder "C:\\U" "out") = true :=
  C10_dir_created_even_when_invalid.2.2.2 ⟨"C:\\U", true, []⟩ ⟨[], []⟩ "nope" "s" "F" "out"
    none false none (by decide)

end OutlookAutomation
